import Mathlib

/-!
Verification of the DNS wire-format codec of this repository.

Go byte strings are modelled as lists of natural numbers below 256; `Option`
models Go panics (out-of-bounds slice indexing) and, through a fuel
parameter, nontermination of the compression-pointer recursion.
-/

namespace DNS

/-- Go `strings.Split(s, ".")`: split a byte string at every dot (byte 46),
keeping empty pieces, so the empty string splits into one empty piece. -/
def splitOnDot : List Nat → List (List Nat)
  | [] => [[]]
  | b :: rest =>
    if b = 46 then [] :: splitOnDot rest
    else
      match splitOnDot rest with
      | [] => [[b]]
      | l :: ls => (b :: l) :: ls

/-- Go `strings.Join(labels, ".")`: concatenate the labels with a dot
(byte 46) between consecutive labels. -/
def joinLabels : List (List Nat) → List Nat
  | [] => []
  | [l] => l
  | l :: l2 :: ls => l ++ 46 :: joinLabels (l2 :: ls)

/-- The label-writing loop of Go `EncodeDomainName` (question.go): every
non-empty label is written as a length byte (Go `byte(len(label))`, which
truncates modulo 256) followed by the label bytes; empty labels are skipped. -/
def encodeLabels : List (List Nat) → List Nat
  | [] => []
  | l :: ls =>
    if 0 < l.length then l.length % 256 :: (l ++ encodeLabels ls)
    else encodeLabels ls

/-- Go `EncodeDomainName` (question.go, lines 134-172): the empty name and
"." encode as the single root byte 0; otherwise the name is split on dots and
each non-empty label is written length-prefixed, then a terminating zero byte. -/
def EncodeDomainName (s : List Nat) : List Nat :=
  if s = [] ∨ s = [46] then [0]
  else encodeLabels (splitOnDot s) ++ [0]

/-- Go slice expression `buf[start : start+len]`; `none` models the
out-of-bounds panic when the slice end exceeds the buffer length. -/
def sliceOpt (buf : List Nat) (start len : Nat) : Option (List Nat) :=
  if start + len ≤ buf.length then some ((buf.drop start).take len) else none

/-- The loop of Go `ParseDomainName` (question.go, lines 91-130), with the
label accumulator made explicit and a fuel parameter: each loop iteration and
each recursive pointer chase consumes one unit of fuel, so `none` models
either an out-of-bounds panic or a computation that never terminates.
A length byte of 0 ends the name; a byte of 192 or more is a compression
pointer whose 14-bit target is its low 6 bits joined with the following
byte, and the caller's offset advances by exactly 2; any other value is an
ordinary label length. -/
def ParseDomainNameAux : Nat → List Nat → Nat → List (List Nat) → Option (List Nat × Nat)
  | 0, _, _, _ => none
  | fuel + 1, buf, off, labels =>
    buf[off]?.bind fun len =>
      if len = 0 then some (joinLabels labels, off + 1)
      else if 192 ≤ len then
        buf[off + 1]?.bind fun b2 =>
          (ParseDomainNameAux fuel buf (len % 64 * 256 + b2) []).bind fun pr =>
            if labels = [] then some (pr.1, off + 2)
            else some (joinLabels labels ++ 46 :: pr.1, off + 2)
      else
        (sliceOpt buf (off + 1) len).bind fun label =>
          ParseDomainNameAux fuel buf (off + 1 + len) (labels ++ [label])

/-- Go `ParseDomainName` (question.go): the loop started with no labels
collected. -/
def ParseDomainName (fuel : Nat) (buf : List Nat) (off : Nat) : Option (List Nat × Nat) :=
  ParseDomainNameAux fuel buf off []

/-- Go `Question` (question.go): the Go field `Type` is spelled `QType`
because `Type` is reserved in Lean. -/
structure Question where
  Name : List Nat
  QType : Nat
  Class : Nat
deriving DecidableEq

/-- Go `ParseQuestion` (question.go, lines 67-84): parse the name, then a
2-byte big-endian type and a 2-byte big-endian class. -/
def ParseQuestion (fuel : Nat) (buf : List Nat) (off : Nat) : Option (Question × Nat) :=
  (ParseDomainName fuel buf off).bind fun pr =>
    match buf[pr.2]?, buf[pr.2 + 1]?, buf[pr.2 + 2]?, buf[pr.2 + 3]? with
    | some t1, some t2, some c1, some c2 =>
      some ({ Name := pr.1, QType := t1 * 256 + t2, Class := c1 * 256 + c2 }, pr.2 + 4)
    | _, _, _, _ => none

/-! ### Basic facts about splitting and joining -/

theorem splitOnDot_ne_nil (s : List Nat) : splitOnDot s ≠ [] := by
  cases s with
  | nil => simp [splitOnDot]
  | cons b rest =>
    simp only [splitOnDot]
    split
    · simp
    · split <;> simp

theorem joinLabels_splitOnDot (s : List Nat) : joinLabels (splitOnDot s) = s := by
  induction s with
  | nil => rfl
  | cons b t ih =>
    by_cases hb : b = 46
    · subst hb
      simp only [splitOnDot, if_pos rfl]
      cases h : splitOnDot t with
      | nil => exact absurd h (splitOnDot_ne_nil t)
      | cons x xs =>
        rw [h] at ih
        simp [joinLabels, ← ih]
    · simp only [splitOnDot, if_neg hb]
      cases h : splitOnDot t with
      | nil => exact absurd h (splitOnDot_ne_nil t)
      | cons l ls =>
        rw [h] at ih
        cases ls with
        | nil =>
          simp only [joinLabels] at ih ⊢
          rw [ih]
        | cons l2 ls2 =>
          simp only [joinLabels] at ih ⊢
          rw [List.cons_append, ih]

theorem splitOnDot_cons (t : List Nat) : ∃ l0 ls, splitOnDot t = l0 :: ls := by
  cases h : splitOnDot t with
  | nil => exact absurd h (splitOnDot_ne_nil t)
  | cons l0 ls => exact ⟨l0, ls, rfl⟩

theorem dot_notMem_splitOnDot (s : List Nat) : ∀ l ∈ splitOnDot s, 46 ∉ l := by
  induction s with
  | nil =>
    intro l hl
    simp [splitOnDot] at hl
    simp [hl]
  | cons b t ih =>
    intro l hl
    by_cases hb : b = 46
    · subst hb
      simp only [splitOnDot, eq_self_iff_true, if_true, List.mem_cons] at hl
      rcases hl with h | h
      · simp [h]
      · exact ih l h
    · obtain ⟨l0, ls, hsp⟩ := splitOnDot_cons t
      simp only [splitOnDot, if_neg hb, hsp, List.mem_cons] at hl
      rcases hl with h1 | h1
      · subst h1
        intro hc
        rcases List.mem_cons.mp hc with h2 | h2
        · exact hb h2.symm
        · exact ih l0 (hsp ▸ List.mem_cons_self l0 ls) h2
      · exact ih l (hsp ▸ List.mem_cons_of_mem l0 h1)

theorem splitOnDot_append_dot (l t : List Nat) (hl : 46 ∉ l) :
    splitOnDot (l ++ 46 :: t) = l :: splitOnDot t := by
  induction l with
  | nil => simp [splitOnDot]
  | cons b l' ih =>
    have hb : b ≠ 46 := fun h => hl (by simp [h])
    have hl' : 46 ∉ l' := fun h => hl (List.mem_cons_of_mem b h)
    simp only [List.cons_append, splitOnDot, if_neg hb]
    rw [show l'.append (46 :: t) = l' ++ 46 :: t from rfl, ih hl']

theorem splitOnDot_of_notMem (l : List Nat) (hl : 46 ∉ l) : splitOnDot l = [l] := by
  induction l with
  | nil => rfl
  | cons b l' ih =>
    have hb : b ≠ 46 := fun h => hl (by simp [h])
    have hl' : 46 ∉ l' := fun h => hl (List.mem_cons_of_mem b h)
    simp only [splitOnDot, if_neg hb, ih hl']

theorem splitOnDot_joinLabels (L : List (List Nat)) (hne : L ≠ [])
    (hdots : ∀ l ∈ L, 46 ∉ l) : splitOnDot (joinLabels L) = L := by
  induction L with
  | nil => exact absurd rfl hne
  | cons l ls ih =>
    cases ls with
    | nil =>
      simp only [joinLabels]
      exact splitOnDot_of_notMem l (hdots l (List.mem_cons_self l []))
    | cons l2 ls2 =>
      simp only [joinLabels]
      rw [splitOnDot_append_dot l _ (hdots l (List.mem_cons_self l _))]
      rw [ih (by simp) (fun x hx => hdots x (List.mem_cons_of_mem l hx))]

/-! ### Buffer access helpers -/

theorem getElem?_of_drop {buf : List Nat} {off : Nat} {x : Nat} {t : List Nat}
    (h : buf.drop off = x :: t) : buf[off]? = some x := by
  have h0 : (buf.drop off)[0]? = some x := by rw [h]; simp
  rwa [List.getElem?_drop, Nat.add_zero] at h0

theorem drop_succ_of_drop {buf : List Nat} {off : Nat} {x : Nat} {t : List Nat}
    (h : buf.drop off = x :: t) : buf.drop (off + 1) = t := by
  have h1 := congrArg (List.drop 1) h
  rw [List.drop_drop] at h1
  simpa using h1

theorem slice_of_drop {buf : List Nat} {off : Nat} {l t : List Nat}
    (h : buf.drop off = l ++ t) (ht : t ≠ []) :
    sliceOpt buf off l.length = some l ∧ buf.drop (off + l.length) = t := by
  have hlen : (buf.drop off).length = l.length + t.length := by rw [h]; simp
  rw [List.length_drop] at hlen
  have htl : 1 ≤ t.length := List.length_pos.mpr ht
  have hle : off + l.length ≤ buf.length := by omega
  refine ⟨?_, ?_⟩
  · rw [sliceOpt, if_pos hle, h, List.take_left]
  · have h1 := congrArg (List.drop l.length) h
    rw [List.drop_drop, List.drop_left] at h1
    exact h1

/-- One unfolding step of the parse loop at positive fuel. -/
theorem ParseDomainNameAux_succ (fuel : Nat) (buf : List Nat) (off : Nat)
    (labels : List (List Nat)) :
    ParseDomainNameAux (fuel + 1) buf off labels =
      buf[off]?.bind fun len =>
        if len = 0 then some (joinLabels labels, off + 1)
        else if 192 ≤ len then
          buf[off + 1]?.bind fun b2 =>
            (ParseDomainNameAux fuel buf (len % 64 * 256 + b2) []).bind fun pr =>
              if labels = [] then some (pr.1, off + 2)
              else some (joinLabels labels ++ 46 :: pr.1, off + 2)
        else
          (sliceOpt buf (off + 1) len).bind fun label =>
            ParseDomainNameAux fuel buf (off + 1 + len) (labels ++ [label]) := rfl

/-- Parsing from an offset where the remaining bytes spell out a sequence of
non-empty labels followed by the terminating zero byte collects exactly those
labels and stops right after the terminator. -/
theorem parse_of_encodeLabels (L : List (List Nat)) :
    ∀ buf off acc rest fuel,
      buf.drop off = encodeLabels L ++ 0 :: rest →
      (∀ l ∈ L, 1 ≤ l.length ∧ l.length ≤ 191) →
      ParseDomainNameAux (fuel + L.length + 1) buf off acc
        = some (joinLabels (acc ++ L), off + (encodeLabels L).length + 1) := by
  induction L with
  | nil =>
    intro buf off acc rest fuel hdrop _
    have hb : buf[off]? = some 0 := getElem?_of_drop (by simpa [encodeLabels] using hdrop)
    rw [ParseDomainNameAux_succ, hb]
    simp [encodeLabels]
  | cons l ls ih =>
    intro buf off acc rest fuel hdrop hlab
    obtain ⟨h1, h191⟩ := hlab l (List.mem_cons_self l ls)
    have hmod : l.length % 256 = l.length := Nat.mod_eq_of_lt (by omega)
    have henc : encodeLabels (l :: ls) = l.length % 256 :: (l ++ encodeLabels ls) := by
      rw [encodeLabels, if_pos (by omega)]
    rw [henc, List.cons_append] at hdrop
    have hb : buf[off]? = some (l.length % 256) := getElem?_of_drop hdrop
    have hdrop1 : buf.drop (off + 1) = l ++ (encodeLabels ls ++ 0 :: rest) := by
      rw [drop_succ_of_drop hdrop, List.append_assoc]
    obtain ⟨hsl, hdrop2⟩ := slice_of_drop hdrop1 (by simp)
    have hfuel : fuel + (l :: ls).length + 1 = (fuel + ls.length + 1) + 1 := by
      simp [List.length_cons]
      omega
    rw [hfuel, ParseDomainNameAux_succ, hb]
    simp only [Option.some_bind]
    have hc1 : ¬(l.length % 256 = 0) := by omega
    have hc2 : ¬(192 ≤ l.length % 256) := by omega
    rw [if_neg hc1, if_neg hc2, hmod, hsl]
    simp only [Option.some_bind]
    rw [ih buf (off + 1 + l.length) (acc ++ [l]) rest fuel hdrop2
      (fun x hx => hlab x (List.mem_cons_of_mem l hx))]
    rw [List.append_assoc, List.singleton_append, henc]
    simp only [List.length_cons, List.length_append]
    congr 2
    omega

/-! ### Well-formedness predicates for domain names -/

/-- Every label of the name (the pieces obtained by splitting on dots) has
length between `lo` and `hi` bytes. -/
def labelsWithin (N : List Nat) (lo hi : Nat) : Prop :=
  ∀ l ∈ splitOnDot N, lo ≤ l.length ∧ l.length ≤ hi

instance (N : List Nat) (lo hi : Nat) : Decidable (labelsWithin N lo hi) :=
  inferInstanceAs (Decidable (∀ l ∈ splitOnDot N, lo ≤ l.length ∧ l.length ≤ hi))

/-- Some label of the name exceeds 63 bytes. -/
def hasOversizedLabel (N : List Nat) : Prop :=
  ∃ l ∈ splitOnDot N, 63 < l.length

instance (N : List Nat) : Decidable (hasOversizedLabel N) :=
  inferInstanceAs (Decidable (∃ l ∈ splitOnDot N, 63 < l.length))

/-- Any name whose labels are all 1 to 191 bytes long round-trips through
encode and decode; the length limits 63 and 255 play no role in the code. -/
theorem roundtrip_of_labelsWithin (N : List Nat) (hlab : labelsWithin N 1 191)
    (fuel : Nat) :
    ParseDomainName (fuel + (splitOnDot N).length + 1) (EncodeDomainName N) 0
      = some (N, (EncodeDomainName N).length) := by
  have hne : ¬(N = [] ∨ N = [46]) := by
    rintro (rfl | rfl)
    · have h := hlab [] (by simp [splitOnDot])
      simp at h
    · have h := hlab [] (by simp [splitOnDot])
      simp at h
  have henc : EncodeDomainName N = encodeLabels (splitOnDot N) ++ 0 :: [] := by
    rw [EncodeDomainName, if_neg hne]
  have h := parse_of_encodeLabels (splitOnDot N) (EncodeDomainName N) 0 [] [] fuel
      (by rw [List.drop_zero, henc]) hlab
  rw [ParseDomainName, h, List.nil_append, joinLabels_splitOnDot, henc]
  simp

/-- The byte string "example.com". -/
def exampleCom : List Nat := [101, 120, 97, 109, 112, 108, 101, 46, 99, 111, 109]

/-- C1: for every well-formed domain name (each label 1-63 bytes, total
encoded length at most 255 bytes, no empty labels), `ParseDomainName` applied
to `EncodeDomainName N` at offset 0 returns the name unchanged together with
the length of the encoding. -/
theorem c1_roundtrip_wellformed (N : List Nat) (hlab : labelsWithin N 1 63)
    (hlen : (EncodeDomainName N).length ≤ 255) (fuel : Nat) :
    ParseDomainName (fuel + (splitOnDot N).length + 1) (EncodeDomainName N) 0
      = some (N, (EncodeDomainName N).length) :=
  roundtrip_of_labelsWithin N
    (fun l hl => ⟨(hlab l hl).1, le_trans (hlab l hl).2 (by omega)⟩) fuel

/-- C1 witness: the round-trip theorem applied to "example.com". -/
theorem c1_witness :
    labelsWithin exampleCom 1 63
    ∧ (EncodeDomainName exampleCom).length ≤ 255
    ∧ ParseDomainName (0 + (splitOnDot exampleCom).length + 1)
        (EncodeDomainName exampleCom) 0
        = some (exampleCom, (EncodeDomainName exampleCom).length) :=
  ⟨by decide, by decide, c1_roundtrip_wellformed exampleCom (by decide) (by decide) 0⟩

/-- C2 counterexample: the buffer `[0xC0, 0x02, 0x00]` holds, at position 0,
a compression pointer whose 14-bit target offset 2 exceeds the pointer's own
byte position 0; `ParseDomainName` does not reject it with any error but
follows it and succeeds, decoding the root name. -/
theorem c2_counterexample : ParseDomainName 2 [192, 2, 0] 0 = some ([], 2) := by
  decide

/-- C2 amended: the code performs no validation of compression-pointer
targets and has no error mechanism at all: a pointer targeting an offset at
or beyond its own position is followed blindly; on a self-referential
pointer (`[0xC0, 0x00]` parsed from offset 0) the recursion never produces a
result at any fuel, i.e. the Go code recurses forever, so domain-name
decoding is not a total function; a forward pointer that reaches a
terminator decodes successfully instead of being rejected. -/
theorem c2_no_pointer_validation :
    (∀ fuel, ParseDomainNameAux fuel [192, 0] 0 [] = none)
    ∧ ParseDomainName 2 [192, 2, 0] 0 = some ([], 2) := by
  refine ⟨?_, by decide⟩
  intro fuel
  induction fuel with
  | zero => rfl
  | succ n ih =>
    rw [ParseDomainNameAux_succ]
    have hb : ([192, 0] : List Nat)[0]? = some 192 := by decide
    have hb2 : ([192, 0] : List Nat)[0 + 1]? = some 0 := by decide
    have hc1 : ¬((192 : Nat) = 0) := by omega
    have hc2 : (192 : Nat) ≤ 192 := le_refl 192
    rw [hb, Option.some_bind, if_neg hc1, if_pos hc2, hb2, Option.some_bind]
    have hptr : (192 % 64 * 256 + 0 : Nat) = 0 := by decide
    rw [hptr, ih]
    rfl

/-- The 64-byte label "aaa...a". -/
def labelA64 : List Nat := List.replicate 64 97

/-- C7 counterexample: for the name consisting of a single 64-byte label
(one byte past the 63-byte limit), `EncodeDomainName` does not fail with any
error: it produces the ordinary length-prefixed encoding, and decoding it
round-trips; no `NameTooLong` failure exists in the code. -/
theorem c7_counterexample :
    EncodeDomainName labelA64 = 64 :: (labelA64 ++ [0])
    ∧ ParseDomainName 2 (EncodeDomainName labelA64) 0
        = some (labelA64, (EncodeDomainName labelA64).length) := by
  constructor
  · decide
  · decide

/-- C7 amended: neither `EncodeDomainName` nor `ParseDomainName` enforces
the 63-byte label limit or the 255-byte total limit, and neither can fail
with a `NameTooLong` error (no error value exists): a name with an oversized
label (up to 191 bytes, past which the length byte would read as a pointer)
or an oversized total still encodes normally - the length byte being the
label length taken modulo 256 - and decoding the encoding round-trips. -/
theorem c7_no_length_error (N : List Nat) (hlab : labelsWithin N 1 191)
    (hbig : hasOversizedLabel N ∨ 255 < (EncodeDomainName N).length)
    (fuel : Nat) :
    ParseDomainName (fuel + (splitOnDot N).length + 1) (EncodeDomainName N) 0
      = some (N, (EncodeDomainName N).length) :=
  roundtrip_of_labelsWithin N hlab fuel

/-- C7 witness: the amended theorem applied to the single 64-byte label. -/
theorem c7_witness :
    labelsWithin labelA64 1 191
    ∧ (hasOversizedLabel labelA64 ∨ 255 < (EncodeDomainName labelA64).length)
    ∧ ParseDomainName (0 + (splitOnDot labelA64).length + 1)
        (EncodeDomainName labelA64) 0
        = some (labelA64, (EncodeDomainName labelA64).length) :=
  ⟨by decide, Or.inl (by decide),
    c7_no_length_error labelA64 (by decide) (Or.inl (by decide)) 0⟩

/-! ### Empty labels are skipped by the encoder -/

/-- Remove the empty labels from a label list. -/
def removeEmptyLabels : List (List Nat) → List (List Nat)
  | [] => []
  | l :: ls => if 0 < l.length then l :: removeEmptyLabels ls else removeEmptyLabels ls

/-- The dot-normalization of a name: the name re-joined after all empty
labels (consecutive, leading or trailing dots) are removed. -/
def stripEmptyLabels (s : List Nat) : List Nat :=
  joinLabels (removeEmptyLabels (splitOnDot s))

theorem encodeLabels_removeEmptyLabels (L : List (List Nat)) :
    encodeLabels (removeEmptyLabels L) = encodeLabels L := by
  induction L with
  | nil => rfl
  | cons l ls ih =>
    by_cases h : 0 < l.length
    · simp [removeEmptyLabels, encodeLabels, h, ih]
    · simp [removeEmptyLabels, encodeLabels, h, ih]

theorem mem_removeEmptyLabels {L : List (List Nat)} {l : List Nat}
    (h : l ∈ removeEmptyLabels L) : l ∈ L ∧ 0 < l.length := by
  induction L with
  | nil => simp [removeEmptyLabels] at h
  | cons x xs ih =>
    by_cases hx : 0 < x.length
    · rw [removeEmptyLabels, if_pos hx] at h
      rcases List.mem_cons.mp h with h1 | h1
      · exact ⟨by simp [h1], h1 ▸ hx⟩
      · obtain ⟨m, p⟩ := ih h1
        exact ⟨List.mem_cons_of_mem x m, p⟩
    · rw [removeEmptyLabels, if_neg hx] at h
      obtain ⟨m, p⟩ := ih h
      exact ⟨List.mem_cons_of_mem x m, p⟩

/-- C9: `EncodeDomainName` skips empty labels, so encoding a name equals
encoding its dot-normalization (the name with all empty labels removed);
decoding after encoding therefore yields the normalized name, not
necessarily the original string. -/
theorem c9_encode_skips_empty_labels (s : List Nat) :
    EncodeDomainName s = EncodeDomainName (stripEmptyLabels s) := by
  cases hF : removeEmptyLabels (splitOnDot s) with
  | nil =>
    have h1 : encodeLabels (splitOnDot s) = [] := by
      rw [← encodeLabels_removeEmptyLabels, hF, encodeLabels]
    have h2 : stripEmptyLabels s = [] := by rw [stripEmptyLabels, hF]; rfl
    rw [h2]
    by_cases hs : s = [] ∨ s = [46]
    · rw [EncodeDomainName, if_pos hs, EncodeDomainName, if_pos (Or.inl rfl)]
    · rw [EncodeDomainName, if_neg hs, h1, EncodeDomainName, if_pos (Or.inl rfl)]
      rfl
  | cons f fs =>
    have hmem : ∀ l ∈ f :: fs, l ∈ splitOnDot s ∧ 0 < l.length := by
      intro l hl
      exact mem_removeEmptyLabels (hF ▸ hl)
    have hdots : ∀ l ∈ f :: fs, 46 ∉ l := fun l hl =>
      dot_notMem_splitOnDot s l (hmem l hl).1
    have hfpos : 0 < f.length := (hmem f (List.mem_cons_self f fs)).2
    have hne : joinLabels (f :: fs) ≠ [] := by
      cases fs with
      | nil =>
        simp only [joinLabels]
        exact fun h => by simp [h] at hfpos
      | cons g gs =>
        simp [joinLabels]
    have h46 : joinLabels (f :: fs) ≠ [46] := by
      cases fs with
      | nil =>
        simp only [joinLabels]
        intro hEq
        exact hdots f (List.mem_cons_self f []) (by rw [hEq]; simp)
      | cons g gs =>
        intro hEq
        have hlen : (joinLabels (f :: g :: gs)).length = 1 := by rw [hEq]; rfl
        simp only [joinLabels, List.length_append, List.length_cons] at hlen
        omega
    have hsplit : splitOnDot (joinLabels (f :: fs)) = f :: fs :=
      splitOnDot_joinLabels (f :: fs) (by simp) hdots
    have hs : ¬(s = [] ∨ s = [46]) := by
      rintro (rfl | rfl)
      · simp [splitOnDot, removeEmptyLabels] at hF
      · simp [splitOnDot, removeEmptyLabels] at hF
    have hjoin : ¬(joinLabels (f :: fs) = [] ∨ joinLabels (f :: fs) = [46]) := by
      rintro (h | h)
      · exact hne h
      · exact h46 h
    rw [stripEmptyLabels, hF, EncodeDomainName, if_neg hs, EncodeDomainName,
      if_neg hjoin, hsplit, ← encodeLabels_removeEmptyLabels (splitOnDot s), hF]

/-! ### Compression pointers and reserved length patterns -/

/-- C5: whenever the parse loop meets a length byte of 192 or more - with
any list of labels already collected - it forms the 14-bit target from the
low 6 bits of that byte and all 8 bits of the next byte, decodes the name at
that offset of the same buffer, dot-joins the collected labels with the
pointed-to name (or returns just that name when none were collected), and
advances the caller's offset by exactly 2, discarding the offset reached
inside the pointed-to region; the recursive parse is unconstrained, so this
covers nested pointer chains as well. -/
theorem c5_pointer_step (fuel : Nat) (buf : List Nat) (off : Nat)
    (acc : List (List Nat)) (b b2 : Nat) (pname : List Nat) (o : Nat)
    (hb : buf[off]? = some b) (h192 : 192 ≤ b) (hb255 : b ≤ 255)
    (hb2 : buf[off + 1]? = some b2)
    (hrec : ParseDomainNameAux fuel buf (b % 64 * 256 + b2) [] = some (pname, o)) :
    ParseDomainNameAux (fuel + 1) buf off acc
      = some (if acc = [] then pname else joinLabels acc ++ 46 :: pname, off + 2) := by
  rw [ParseDomainNameAux_succ, hb, Option.some_bind]
  have hc1 : ¬(b = 0) := by omega
  rw [if_neg hc1, if_pos h192, hb2, Option.some_bind, hrec, Option.some_bind]
  by_cases hacc : acc = []
  · rw [if_pos hacc, if_pos hacc]
  · rw [if_neg hacc, if_neg hacc]

/-- A message holding "com" spelled out at offset 0, "example" plus a
pointer to offset 0 starting at offset 5, and "www" plus a pointer to
offset 5 starting at offset 15: a nested pointer chain. -/
def chainBuf : List Nat :=
  [3, 99, 111, 109, 0,
   7, 101, 120, 97, 109, 112, 108, 101, 192, 0,
   3, 119, 119, 119, 192, 5]

/-- C5 witness: at offset 19 of `chainBuf`, with the label "www" already
collected, the pointer (0xC0, 0x05) resolves through a nested chain to
"example.com", yields "www.example.com", and advances the offset to 21. -/
theorem c5_witness :
    chainBuf[19]? = some 192
    ∧ ParseDomainNameAux 4 chainBuf (192 % 64 * 256 + 5) [] = some (exampleCom, 15)
    ∧ ParseDomainNameAux 5 chainBuf 19 [[119, 119, 119]]
        = some (if ([[119, 119, 119]] : List (List Nat)) = [] then exampleCom
                else joinLabels [[119, 119, 119]] ++ 46 :: exampleCom, 19 + 2) :=
  ⟨by decide, by decide,
    c5_pointer_step 4 chainBuf 19 [[119, 119, 119]] 192 5 exampleCom 15
      (by decide) (by decide) (by decide) (by decide) (by decide)⟩

/-- C10: a length byte between 64 and 191 (the reserved patterns 0b01xxxxxx
and 0b10xxxxxx) is treated as an ordinary label of exactly that many bytes
and the loop continues past it; only values of 192 or more take the pointer
branch, and no length value is rejected as an error. -/
theorem c10_reserved_patterns (fuel : Nat) (buf : List Nat) (off : Nat)
    (acc : List (List Nat)) (b : Nat) (label : List Nat)
    (hb : buf[off]? = some b) (h64 : 64 ≤ b) (h191 : b ≤ 191)
    (hs : sliceOpt buf (off + 1) b = some label) :
    label.length = b
    ∧ ParseDomainNameAux (fuel + 1) buf off acc
        = ParseDomainNameAux fuel buf (off + 1 + b) (acc ++ [label]) := by
  constructor
  · rw [sliceOpt] at hs
    by_cases hle : off + 1 + b ≤ buf.length
    · rw [if_pos hle] at hs
      have hlab : (buf.drop (off + 1)).take b = label := Option.some.inj hs
      rw [← hlab, List.length_take, List.length_drop]
      omega
    · rw [if_neg hle] at hs
      exact absurd hs (by simp)
  · rw [ParseDomainNameAux_succ, hb, Option.some_bind]
    have hc1 : ¬(b = 0) := by omega
    have hc2 : ¬(192 ≤ b) := by omega
    rw [if_neg hc1, if_neg hc2, hs, Option.some_bind]

/-- A buffer holding a single 64-byte label and the terminator. -/
def buf64 : List Nat := 64 :: (List.replicate 64 97 ++ [0])

/-- C10 witness: the reserved length byte 64 at offset 0 of `buf64` is
consumed as an ordinary 64-byte label and the loop continues at offset 65. -/
theorem c10_witness :
    (List.replicate 64 97 : List Nat).length = 64
    ∧ ParseDomainNameAux 2 buf64 0 []
        = ParseDomainNameAux 1 buf64 (0 + 1 + 64) ([] ++ [List.replicate 64 97]) :=
  c10_reserved_patterns 1 buf64 0 [] 64 (List.replicate 64 97)
    (by decide) (by decide) (by decide) (by decide)

/-! ### Header codec

The Go `Header`/`Flag` types live in a header file that is not among the
provided sources (only their call sites in server.go and request.go are);
they are modelled from the spec, sections 3 and 4.3. -/

/-- Bit-field read: the `width`-bit field at bit offset `lo` of the word `w`. -/
def getBits (w lo width : Nat) : Nat := w / 2 ^ lo % 2 ^ width

/-- Mask-and-shift bit-field write: replace the `width`-bit field at bit
offset `lo` of `w` by `v` (truncated to `width` bits), leaving the bits
below `lo` and the bits from `lo + width` upward untouched. -/
def setBits (w lo width v : Nat) : Nat :=
  w % 2 ^ lo + v % 2 ^ width * 2 ^ lo + w / 2 ^ (lo + width) * 2 ^ (lo + width)

/-- Modelled from the spec: the Go `Flag` type (missing header file),
reconstructed from spec sections 3 and 4.3: a single packed 16-bit flags
word with mask-and-shift accessors per sub-field, laid out as QR (bit 15),
Opcode (bits 11-14), AA (bit 10), TC (bit 9), RD (bit 8), RA (bit 7),
Z (bits 4-6), RCODE (bits 0-3). -/
structure Flag where
  bits : Nat
deriving DecidableEq

/-- Modelled from the spec: `NewFlag` builds the flags word from the two
big-endian flag bytes of the header (server.go calls it with two bytes). -/
def NewFlag (b1 b2 : Nat) : Flag := ⟨b1 * 256 + b2⟩

/-- Modelled from the spec: QR sub-field getter. -/
def Flag.QR (f : Flag) : Nat := getBits f.bits 15 1

/-- Modelled from the spec: Opcode sub-field getter. -/
def Flag.Opcode (f : Flag) : Nat := getBits f.bits 11 4

/-- Modelled from the spec: AA sub-field getter. -/
def Flag.AA (f : Flag) : Nat := getBits f.bits 10 1

/-- Modelled from the spec: TC sub-field getter. -/
def Flag.TC (f : Flag) : Nat := getBits f.bits 9 1

/-- Modelled from the spec: RD sub-field getter. -/
def Flag.RD (f : Flag) : Nat := getBits f.bits 8 1

/-- Modelled from the spec: RA sub-field getter. -/
def Flag.RA (f : Flag) : Nat := getBits f.bits 7 1

/-- Modelled from the spec: Z sub-field getter. -/
def Flag.Z (f : Flag) : Nat := getBits f.bits 4 3

/-- Modelled from the spec: RCODE sub-field getter. -/
def Flag.RCODE (f : Flag) : Nat := getBits f.bits 0 4

/-- Modelled from the spec: `SetQR`, the setter server.go calls with `true`. -/
def Flag.SetQR (f : Flag) (v : Bool) : Flag := ⟨setBits f.bits 15 1 v.toNat⟩

/-- Modelled from the spec: Opcode sub-field setter. -/
def Flag.SetOpcode (f : Flag) (v : Nat) : Flag := ⟨setBits f.bits 11 4 v⟩

/-- Modelled from the spec: AA sub-field setter. -/
def Flag.SetAA (f : Flag) (v : Nat) : Flag := ⟨setBits f.bits 10 1 v⟩

/-- Modelled from the spec: TC sub-field setter. -/
def Flag.SetTC (f : Flag) (v : Nat) : Flag := ⟨setBits f.bits 9 1 v⟩

/-- Modelled from the spec: RD sub-field setter. -/
def Flag.SetRD (f : Flag) (v : Nat) : Flag := ⟨setBits f.bits 8 1 v⟩

/-- Modelled from the spec: RA sub-field setter. -/
def Flag.SetRA (f : Flag) (v : Nat) : Flag := ⟨setBits f.bits 7 1 v⟩

/-- Modelled from the spec: Z sub-field setter. -/
def Flag.SetZ (f : Flag) (v : Nat) : Flag := ⟨setBits f.bits 4 3 v⟩

/-- Modelled from the spec: RCODE sub-field setter. -/
def Flag.SetRCODE (f : Flag) (v : Nat) : Flag := ⟨setBits f.bits 0 4 v⟩

/-- Modelled from the spec: the Go `Header` type (missing header file):
16-bit transaction ID, packed flags word, and the four section counts. -/
structure Header where
  ID : Nat
  Flags : Flag
  QDCount : Nat
  ANCount : Nat
  NSCount : Nat
  ARCount : Nat
deriving DecidableEq

/-- Every field of the header fits in 16 bits, as the Go `uint16` fields
guarantee by construction. -/
def Header.WF (h : Header) : Prop :=
  h.ID < 65536 ∧ h.Flags.bits < 65536 ∧ h.QDCount < 65536
    ∧ h.ANCount < 65536 ∧ h.NSCount < 65536 ∧ h.ARCount < 65536

instance (h : Header) : Decidable h.WF :=
  inferInstanceAs (Decidable (_ ∧ _ ∧ _ ∧ _ ∧ _ ∧ _))

/-- Modelled from the spec (section 4.3): `Header.Marshal` writes ID, flags
word and the four counts as six big-endian 16-bit fields, 12 bytes in all. -/
def Header.Marshal (h : Header) : List Nat :=
  [h.ID / 256 % 256, h.ID % 256,
   h.Flags.bits / 256 % 256, h.Flags.bits % 256,
   h.QDCount / 256 % 256, h.QDCount % 256,
   h.ANCount / 256 % 256, h.ANCount % 256,
   h.NSCount / 256 % 256, h.NSCount % 256,
   h.ARCount / 256 % 256, h.ARCount % 256]

/-- Modelled from the spec (section 4.3): `ParseHeader` reads the six
big-endian 16-bit fields from the first 12 bytes; `none` models the
out-of-bounds panic on a shorter buffer. -/
def ParseHeader (buf : List Nat) : Option Header :=
  match buf with
  | b0 :: b1 :: b2 :: b3 :: b4 :: b5 :: b6 :: b7 :: b8 :: b9 :: b10 :: b11 :: _ =>
    some { ID := b0 * 256 + b1, Flags := ⟨b2 * 256 + b3⟩,
           QDCount := b4 * 256 + b5, ANCount := b6 * 256 + b7,
           NSCount := b8 * 256 + b9, ARCount := b10 * 256 + b11 }
  | _ => none

/-- Go `Request` (request.go): the `Question` and `Answer` fields are
`interface{}` values that `ParseRequest` never assigns, modelled as options. -/
structure Request where
  header : Header
  question : Option Question
  answer : Option Unit
deriving DecidableEq

/-- Go `ParseRequest` (request.go, lines 9-13): re-slices `buf[:12]` and
parses only the header; the question and answer fields are left nil. Go
bounds-checks a re-slice against the slice's capacity, not its length, so
the argument here models the slice's backing window from its start through
its capacity; `none` models the out-of-bounds panic when even the capacity
is below 12 bytes (which the program's only call site, passing the 512-byte
receive buffer, can never trigger). -/
def ParseRequest (buf : List Nat) : Option Request :=
  (ParseHeader buf).map fun h => { header := h, question := none, answer := none }

/-- The response header built per datagram by `DNSServer.Listen` (server.go,
lines 42-50): ID and the four counts copied from the request header, flags
built from two zero bytes and then the QR bit set. -/
def responseHeader (req : Request) : Header :=
  { ID := req.header.ID
    Flags := (NewFlag 0 0).SetQR true
    QDCount := req.header.QDCount
    ANCount := req.header.ANCount
    NSCount := req.header.NSCount
    ARCount := req.header.ARCount }

/-- server.go lines 53-56: a fresh 512-byte zero buffer with the marshalled
response header copied into its first 12 bytes. -/
def buildResponse (req : Request) : List Nat :=
  (responseHeader req).Marshal ++ List.replicate 500 0

/-- The receive buffer after `conn.ReadFromUDP(buf)` (server.go, line 32)
has copied an inbound datagram into the front of the buffer whose previous
contents were `old` (512 zero bytes at startup, stale bytes of earlier
datagrams afterwards): the datagram overwrites the first bytes and the
remainder of the buffer keeps its old contents. -/
def receiveBuffer (old dgram : List Nat) : List Nat :=
  dgram.take old.length ++ old.drop dgram.length

/-- The serve loop's per-datagram processing (server.go, lines 31-61):
`ParseRequest(buf[:size])` receives a slice of length `size` but capacity
512 backed by the receive buffer, so its `buf[:12]` re-slice reads the
first 12 bytes of the backing window - datagram bytes first, stale buffer
bytes after a short datagram - and never panics here; the loop then sends
the `some` response and continues (`none` would model a panic killing the
process, since the loop has no recover). -/
def handleDatagram (old dgram : List Nat) : Option (List Nat) :=
  (ParseRequest (receiveBuffer old dgram)).map buildResponse

/-! ### Flag frame property and header round-trip -/

/-- Setting any one sub-field of the flags word leaves the other seven
sub-fields unchanged (the getter values before and after coincide). -/
def FlagFrameAt (f : Flag) (v : Bool) (w : Nat) : Prop :=
  ((f.SetQR v).Opcode = f.Opcode ∧ (f.SetQR v).AA = f.AA ∧ (f.SetQR v).TC = f.TC
    ∧ (f.SetQR v).RD = f.RD ∧ (f.SetQR v).RA = f.RA ∧ (f.SetQR v).Z = f.Z
    ∧ (f.SetQR v).RCODE = f.RCODE)
  ∧ ((f.SetOpcode w).QR = f.QR ∧ (f.SetOpcode w).AA = f.AA ∧ (f.SetOpcode w).TC = f.TC
    ∧ (f.SetOpcode w).RD = f.RD ∧ (f.SetOpcode w).RA = f.RA ∧ (f.SetOpcode w).Z = f.Z
    ∧ (f.SetOpcode w).RCODE = f.RCODE)
  ∧ ((f.SetAA w).QR = f.QR ∧ (f.SetAA w).Opcode = f.Opcode ∧ (f.SetAA w).TC = f.TC
    ∧ (f.SetAA w).RD = f.RD ∧ (f.SetAA w).RA = f.RA ∧ (f.SetAA w).Z = f.Z
    ∧ (f.SetAA w).RCODE = f.RCODE)
  ∧ ((f.SetTC w).QR = f.QR ∧ (f.SetTC w).Opcode = f.Opcode ∧ (f.SetTC w).AA = f.AA
    ∧ (f.SetTC w).RD = f.RD ∧ (f.SetTC w).RA = f.RA ∧ (f.SetTC w).Z = f.Z
    ∧ (f.SetTC w).RCODE = f.RCODE)
  ∧ ((f.SetRD w).QR = f.QR ∧ (f.SetRD w).Opcode = f.Opcode ∧ (f.SetRD w).AA = f.AA
    ∧ (f.SetRD w).TC = f.TC ∧ (f.SetRD w).RA = f.RA ∧ (f.SetRD w).Z = f.Z
    ∧ (f.SetRD w).RCODE = f.RCODE)
  ∧ ((f.SetRA w).QR = f.QR ∧ (f.SetRA w).Opcode = f.Opcode ∧ (f.SetRA w).AA = f.AA
    ∧ (f.SetRA w).TC = f.TC ∧ (f.SetRA w).RD = f.RD ∧ (f.SetRA w).Z = f.Z
    ∧ (f.SetRA w).RCODE = f.RCODE)
  ∧ ((f.SetZ w).QR = f.QR ∧ (f.SetZ w).Opcode = f.Opcode ∧ (f.SetZ w).AA = f.AA
    ∧ (f.SetZ w).TC = f.TC ∧ (f.SetZ w).RD = f.RD ∧ (f.SetZ w).RA = f.RA
    ∧ (f.SetZ w).RCODE = f.RCODE)
  ∧ ((f.SetRCODE w).QR = f.QR ∧ (f.SetRCODE w).Opcode = f.Opcode ∧ (f.SetRCODE w).AA = f.AA
    ∧ (f.SetRCODE w).TC = f.TC ∧ (f.SetRCODE w).RD = f.RD ∧ (f.SetRCODE w).RA = f.RA
    ∧ (f.SetRCODE w).Z = f.Z)

theorem flagFrameAt_holds (f : Flag) (v : Bool) (w : Nat) : FlagFrameAt f v w := by
  obtain ⟨bits⟩ := f
  cases v <;>
  · simp only [FlagFrameAt, Flag.SetQR, Flag.SetOpcode, Flag.SetAA, Flag.SetTC,
      Flag.SetRD, Flag.SetRA, Flag.SetZ, Flag.SetRCODE, Flag.QR, Flag.Opcode,
      Flag.AA, Flag.TC, Flag.RD, Flag.RA, Flag.Z, Flag.RCODE, Bool.toNat_false,
      Bool.toNat_true, getBits, setBits]
    refine ⟨⟨?_, ?_, ?_, ?_, ?_, ?_, ?_⟩, ⟨?_, ?_, ?_, ?_, ?_, ?_, ?_⟩,
      ⟨?_, ?_, ?_, ?_, ?_, ?_, ?_⟩, ⟨?_, ?_, ?_, ?_, ?_, ?_, ?_⟩,
      ⟨?_, ?_, ?_, ?_, ?_, ?_, ?_⟩, ⟨?_, ?_, ?_, ?_, ?_, ?_, ?_⟩,
      ⟨?_, ?_, ?_, ?_, ?_, ?_, ?_⟩, ⟨?_, ?_, ?_, ?_, ?_, ?_, ?_⟩⟩ <;> omega

theorem ParseHeader_Marshal (h : Header) (hwf : h.WF) : ParseHeader h.Marshal = some h := by
  obtain ⟨ID, ⟨bits⟩, qd, an, ns, ar⟩ := h
  have h1 : ID < 65536 := hwf.1
  have h2 : bits < 65536 := hwf.2.1
  have h3 : qd < 65536 := hwf.2.2.1
  have h4 : an < 65536 := hwf.2.2.2.1
  have h5 : ns < 65536 := hwf.2.2.2.2.1
  have h6 : ar < 65536 := hwf.2.2.2.2.2
  simp only [Header.Marshal, ParseHeader, Option.some.injEq, Header.mk.injEq,
    Flag.mk.injEq]
  refine ⟨?_, ?_, ?_, ?_, ?_, ?_⟩ <;> omega

/-! ### Claims about requests, responses and the header -/

/-- The end-to-end scenario datagram: a 12-byte header with ID 0x1234,
QDCount 1, all flags and other counts zero, followed by a question for
"codecrafters.io", type A (1), class 1. -/
def e2eDatagram : List Nat :=
  [18, 52, 0, 0, 0, 1, 0, 0, 0, 0, 0, 0,
   12, 99, 111, 100, 101, 99, 114, 97, 102, 116, 101, 114, 115,
   2, 105, 111, 0,
   0, 1, 0, 1]

/-- The byte string "codecrafters.io". -/
def codecraftersIo : List Nat :=
  [99, 111, 100, 101, 99, 114, 97, 102, 116, 101, 114, 115, 46, 105, 111]

/-- C3 counterexample: on the end-to-end datagram, `ParseRequest` returns a
request whose header has ID 0x1234 but whose question field is `none` - the
question section is never parsed (request.go builds the `Request` from
`ParseHeader` alone), contradicting the claim that the parsed request holds
the question "codecrafters.io". -/
theorem c3_counterexample :
    ParseRequest e2eDatagram
      = some { header := { ID := 4660, Flags := ⟨0⟩, QDCount := 1, ANCount := 0,
                           NSCount := 0, ARCount := 0 },
               question := none, answer := none } := by
  decide

/-- C3 amended: `ParseRequest` parses only the 12-byte header (ID 0x1234 on
the end-to-end datagram) and leaves the question field empty; the question
codec itself, applied directly at offset 12, does return the question
"codecrafters.io" with type A (1), class 1 and final offset 33, but
`ParseRequest` never invokes it. -/
theorem c3_header_only :
    (ParseRequest e2eDatagram).map (fun r => (r.header.ID, r.question))
        = some (4660, none)
    ∧ ParseQuestion 3 e2eDatagram 12
        = some ({ Name := codecraftersIo, QType := 1, Class := 1 }, 33) := by
  exact ⟨by decide, by decide⟩

theorem buildResponse_length (req : Request) : (buildResponse req).length = 512 := by
  rw [buildResponse, List.length_append, List.length_replicate]
  rfl

/-- C4: for every successfully parsed request, the synthesized response is
512 bytes, its first 12 bytes are the marshalled response header, and that
header copies ID and all four counts from the request while its flags word
has QR = 1 and every other sub-field zero. -/
theorem c4_response_header (buf : List Nat) (req : Request)
    (hreq : ParseRequest buf = some req) :
    (buildResponse req).length = 512
    ∧ (buildResponse req).take 12 = (responseHeader req).Marshal
    ∧ (responseHeader req).ID = req.header.ID
    ∧ (responseHeader req).QDCount = req.header.QDCount
    ∧ (responseHeader req).ANCount = req.header.ANCount
    ∧ (responseHeader req).NSCount = req.header.NSCount
    ∧ (responseHeader req).ARCount = req.header.ARCount
    ∧ (responseHeader req).Flags.QR = 1
    ∧ (responseHeader req).Flags.Opcode = 0
    ∧ (responseHeader req).Flags.AA = 0
    ∧ (responseHeader req).Flags.TC = 0
    ∧ (responseHeader req).Flags.RD = 0
    ∧ (responseHeader req).Flags.RA = 0
    ∧ (responseHeader req).Flags.Z = 0
    ∧ (responseHeader req).Flags.RCODE = 0 := by
  have hfl : (responseHeader req).Flags = ⟨32768⟩ := rfl
  refine ⟨buildResponse_length req, rfl, rfl, rfl, rfl, rfl, rfl,
    ?_, ?_, ?_, ?_, ?_, ?_, ?_, ?_⟩ <;> rw [hfl] <;> decide

/-- A sample 12-byte datagram: ID 1, zero flags, counts 2, 3, 4, 5. -/
def bufSample : List Nat := [0, 1, 0, 0, 0, 2, 0, 3, 0, 4, 0, 5]

/-- The request parsed from `bufSample`. -/
def reqSample : Request :=
  { header := { ID := 1, Flags := ⟨0⟩, QDCount := 2, ANCount := 3,
                NSCount := 4, ARCount := 5 },
    question := none, answer := none }

/-- C4 witness: the response theorem applied to the request parsed from the
sample datagram. -/
theorem c4_witness :
    ParseRequest bufSample = some reqSample
    ∧ ((buildResponse reqSample).length = 512
      ∧ (buildResponse reqSample).take 12 = (responseHeader reqSample).Marshal
      ∧ (responseHeader reqSample).ID = reqSample.header.ID
      ∧ (responseHeader reqSample).QDCount = reqSample.header.QDCount
      ∧ (responseHeader reqSample).ANCount = reqSample.header.ANCount
      ∧ (responseHeader reqSample).NSCount = reqSample.header.NSCount
      ∧ (responseHeader reqSample).ARCount = reqSample.header.ARCount
      ∧ (responseHeader reqSample).Flags.QR = 1
      ∧ (responseHeader reqSample).Flags.Opcode = 0
      ∧ (responseHeader reqSample).Flags.AA = 0
      ∧ (responseHeader reqSample).Flags.TC = 0
      ∧ (responseHeader reqSample).Flags.RD = 0
      ∧ (responseHeader reqSample).Flags.RA = 0
      ∧ (responseHeader reqSample).Flags.Z = 0
      ∧ (responseHeader reqSample).Flags.RCODE = 0) :=
  ⟨by decide, c4_response_header bufSample reqSample (by decide)⟩

theorem receiveBuffer_length (old dgram : List Nat) :
    (receiveBuffer old dgram).length = old.length := by
  rw [receiveBuffer, List.length_append, List.length_take, List.length_drop]
  omega

theorem ParseHeader_isSome_of_length (buf : List Nat) (h : 12 ≤ buf.length) :
    (ParseHeader buf).isSome = true := by
  rcases buf with _ | ⟨b0, _ | ⟨b1, _ | ⟨b2, _ | ⟨b3, _ | ⟨b4, _ | ⟨b5, _ |
    ⟨b6, _ | ⟨b7, _ | ⟨b8, _ | ⟨b9, _ | ⟨b10, _ | ⟨b11, rest⟩⟩⟩⟩⟩⟩⟩⟩⟩⟩⟩⟩ <;>
    first
      | rfl
      | (exfalso; simp only [List.length_cons, List.length_nil] at h; omega)

set_option maxRecDepth 4096 in
/-- C6 counterexample: the claim says a malformed datagram is dropped; on a
1-byte datagram arriving at a fresh server (512-byte zero receive buffer),
the serve loop instead sends back a 512-byte response whose leading ID
bytes echo a header fabricated from the single real byte padded with the
buffer's stale (zero) bytes - Go re-slicing is bounds-checked against the
512-byte capacity, so nothing panics and nothing is dropped. -/
theorem c6_counterexample :
    Option.map (fun r => (r.length, r.take 2))
        (handleDatagram (List.replicate 512 0) [171])
      = some (512, [171, 0]) := by
  decide

/-- C6 amended: processing an inbound datagram never crashes or hangs the
serve loop: `ParseRequest` re-slices the first 12 bytes of the 512-byte
receive buffer within its capacity, so even a datagram shorter than 12
bytes is parsed - its missing header bytes filled by stale buffer
contents - the question bytes are never parsed at all, and a 512-byte
response is produced for every datagram, so the loop continues; but the
offending datagram is answered rather than dropped. -/
theorem c6_never_crashes (old dgram : List Nat) (hold : old.length = 512) :
    (ParseRequest (receiveBuffer old dgram)).isSome = true
    ∧ (handleDatagram old dgram).isSome = true
    ∧ Option.map List.length (handleDatagram old dgram) = some 512 := by
  have hlen : 12 ≤ (receiveBuffer old dgram).length := by
    rw [receiveBuffer_length, hold]
    omega
  have hp := ParseHeader_isSome_of_length (receiveBuffer old dgram) hlen
  obtain ⟨hd, hhd⟩ := Option.isSome_iff_exists.mp hp
  refine ⟨?_, ?_, ?_⟩
  · rw [ParseRequest, hhd]
    rfl
  · rw [handleDatagram, ParseRequest, hhd]
    rfl
  · rw [handleDatagram, ParseRequest, hhd]
    simp [buildResponse_length]

set_option maxRecDepth 4096 in
/-- C6 witness: the amended theorem applied to a fresh 512-byte receive
buffer and a malformed 3-byte datagram. -/
theorem c6_witness :
    (ParseRequest (receiveBuffer (List.replicate 512 0) [1, 2, 3])).isSome = true
    ∧ (handleDatagram (List.replicate 512 0) [1, 2, 3]).isSome = true
    ∧ Option.map List.length (handleDatagram (List.replicate 512 0) [1, 2, 3])
        = some 512 :=
  c6_never_crashes (List.replicate 512 0) [1, 2, 3] (by decide)

/-- C8: for every 16-bit-valued header, decoding its encoding returns it
unchanged, and setting any one flags sub-field through its accessor leaves
every other sub-field of the packed 16-bit flags word unchanged. -/
theorem c8_header_roundtrip_frame (h : Header) (hwf : h.WF) (f : Flag)
    (v : Bool) (w : Nat) :
    ParseHeader h.Marshal = some h ∧ FlagFrameAt f v w :=
  ⟨ParseHeader_Marshal h hwf, flagFrameAt_holds f v w⟩

/-- A sample header with ID 0x1234 and QDCount 1. -/
def headerSample : Header :=
  { ID := 4660, Flags := ⟨0⟩, QDCount := 1, ANCount := 0, NSCount := 0, ARCount := 0 }

/-- C8 witness: the round-trip and frame theorem applied to the sample
header, an arbitrary flags word 0x6D7A, v = true and w = 5. -/
theorem c8_witness :
    headerSample.WF
    ∧ (ParseHeader headerSample.Marshal = some headerSample
      ∧ FlagFrameAt ⟨28026⟩ true 5) :=
  ⟨by decide, c8_header_roundtrip_frame headerSample (by decide) ⟨28026⟩ true 5⟩

end DNS
